import Mathlib

/-!
Verification of the thor_reforged criticality engine against its
natural-language specification.  Every definition is a shallow embedding of
the corresponding Rust item (file and symbol cited in each doc comment);
machine integers `u32`/`u64` are modelled as `Nat`, and the `f32`/`f64`
operability values as exact rationals `ℚ` (the runs examined here only ever
compare, take maxima of, and add the exact values 0, 1/2 and 1, on which
IEEE arithmetic is exact).
-/

namespace ThorReforged

/-! ## `src/util.rs` : `split_range` -/

/-- Loop body of `split_range` (`src/util.rs`, lines 2-17), translated as a
countdown recursion: `rem` counts the remaining iterations, so the Rust loop
index `i` equals `breaks - rem`, and the final-iteration test
`i == breaks - 1` becomes `rem = 1` (matched here as `rem + 1` with
`rem = 0`).  `e` is the running mutable `end`, `s` the running mutable
`start`.  `u64` subtraction `max - end` never underflows on the reachable
states and is modelled by truncated `Nat` subtraction. -/
def splitRangeAux (max diff : Nat) : Nat → Nat → Nat → List (Nat × Nat)
  | 0, _e, _s => []
  | rem + 1, e, s =>
    let e1 := e + diff
    let e2 := if rem = 0 then e1 + (max - e1) else e1
    (s, e2) :: splitRangeAux max diff rem e2 (s + diff)

/-- `split_range(start, max, breaks)` from `src/util.rs`:
`diff = max / breaks`, the mutable `end` starts at `0` (not at `start`),
and the last range absorbs the remainder. -/
def split_range (start max breaks : Nat) : List (Nat × Nat) :=
  splitRangeAux max (max / breaks) breaks 0 start

/-! ## `src/analyses/criticality/loop_condition.rs` : `MaxLoopCondition` -/

/-- `MaxLoopCondition` (`src/analyses/criticality/loop_condition.rs`). -/
structure MaxLoopCondition where
  max : Nat
  index : Nat
  deriving Repr, DecidableEq

/-- `MaxLoopCondition::stop` : returns `true` (and leaves the state alone)
when `index == max`, otherwise increments `index` and returns `false`. -/
def MaxLoopCondition.stop (c : MaxLoopCondition) : Bool × MaxLoopCondition :=
  if c.index = c.max then (true, c)
  else (false, ⟨c.max, c.index + 1⟩)

/-- State of a `MaxLoopCondition` after `n` calls to `stop()`. -/
def MaxLoopCondition.stopN (c : MaxLoopCondition) : Nat → MaxLoopCondition
  | 0 => c
  | n + 1 => (c.stop.2).stopN n

/-- The number of `false` results `stop()` yields before the first `true`
(meaningful when `index ≤ max`; characterised by `stopN_stop_false` /
`stopN_stop_true` below). -/
def MaxLoopCondition.falseCount (c : MaxLoopCondition) : Nat :=
  c.max - c.index

/-- `MaxLoopCondition::split_to_threads` : each range `(start, end)` of
`split_range(index, max, threads)` becomes `MaxLoopCondition{max: end, index: start}`. -/
def MaxLoopCondition.split_to_threads (c : MaxLoopCondition) (threads : Nat) :
    List MaxLoopCondition :=
  (split_range c.index c.max threads).map fun p => ⟨p.2, p.1⟩

/-! ### Helper lemmas -/

theorem stopN_mk (m : Nat) : ∀ n i, i ≤ m →
    MaxLoopCondition.stopN ⟨m, i⟩ n = ⟨m, min (i + n) m⟩ := by
  intro n
  induction n with
  | zero =>
    intro i h
    have hmin : min (i + 0) m = i := by omega
    rw [hmin]
    rfl
  | succ n ih =>
    intro i h
    by_cases hc : i = m
    · have h2 : (MaxLoopCondition.stop ⟨m, i⟩).2 = ⟨m, i⟩ := by
        simp [MaxLoopCondition.stop, hc]
      have h1 : MaxLoopCondition.stopN ⟨m, i⟩ (n + 1) = MaxLoopCondition.stopN ⟨m, i⟩ n := by
        show (MaxLoopCondition.stop ⟨m, i⟩).2.stopN n = _
        rw [h2]
      rw [h1, ih i h]
      have hmin : min (i + n) m = min (i + (n + 1)) m := by omega
      rw [hmin]
    · have h2 : (MaxLoopCondition.stop ⟨m, i⟩).2 = ⟨m, i + 1⟩ := by
        simp [MaxLoopCondition.stop, hc]
      have h1 : MaxLoopCondition.stopN ⟨m, i⟩ (n + 1) = MaxLoopCondition.stopN ⟨m, i + 1⟩ n := by
        show (MaxLoopCondition.stop ⟨m, i⟩).2.stopN n = _
        rw [h2]
      rw [h1, ih (i + 1) (by omega)]
      have hmin : min (i + 1 + n) m = min (i + (n + 1)) m := by omega
      rw [hmin]

theorem stop_fst_false (m i : Nat) (h : i < m) :
    ((MaxLoopCondition.mk m i).stop).1 = false := by
  have hne : ¬ (i = m) := by omega
  simp [MaxLoopCondition.stop, hne]

theorem stop_fst_true (m : Nat) : ((MaxLoopCondition.mk m m).stop).1 = true := by
  simp [MaxLoopCondition.stop]

theorem stopN_stop_false (m i j : Nat) (h : i ≤ m) (hj : j < m - i) :
    ((MaxLoopCondition.stopN ⟨m, i⟩ j).stop).1 = false := by
  rw [stopN_mk m j i h]
  exact stop_fst_false m (min (i + j) m) (by omega)

theorem stopN_stop_true (m i : Nat) (h : i ≤ m) :
    ((MaxLoopCondition.stopN ⟨m, i⟩ (m - i)).stop).1 = true := by
  rw [stopN_mk m (m - i) i h]
  have hmin : min (i + (m - i)) m = m := by omega
  rw [hmin]
  exact stop_fst_true m

/-- Chain property of `splitRangeAux` along the reachable states of the
`start = 0` instance (where the running `start` and `end` coincide):
every piece is a well-formed range and the piece lengths sum to `max - e`. -/
theorem splitRangeAux_chain (max diff : Nat) :
    ∀ rem e, 0 < rem → e + diff * rem ≤ max →
    (∀ p ∈ splitRangeAux max diff rem e e, p.1 ≤ p.2) ∧
    ((splitRangeAux max diff rem e e).map (fun p => p.2 - p.1)).sum = max - e := by
  intro rem
  induction rem with
  | zero => intro e h0 _; omega
  | succ r ih =>
    intro e _ h2
    rw [Nat.mul_succ] at h2
    by_cases hr : r = 0
    · subst hr
      have hle : e + diff ≤ max := by omega
      have heq : splitRangeAux max diff 1 e e = [(e, max)] := by
        simp [splitRangeAux]
        omega
      rw [heq]
      constructor
      · intro p hp
        rw [List.mem_singleton] at hp
        subst hp
        omega
      · simp
    · have hstep : e + diff + diff * r ≤ max := by omega
      obtain ⟨iha, ihb⟩ := ih (e + diff) (Nat.pos_of_ne_zero hr) hstep
      have hle : e + diff ≤ max := by
        have hd : diff ≤ diff * r + diff := by omega
        omega
      have heq : splitRangeAux max diff (r + 1) e e
          = (e, e + diff) :: splitRangeAux max diff r (e + diff) (e + diff) := by
        simp [splitRangeAux, hr]
      rw [heq]
      constructor
      · intro p hp
        rcases List.mem_cons.mp hp with hp1 | hp1
        · subst hp1
          exact Nat.le_add_right e diff
        · exact iha p hp1
      · simp only [List.map_cons, List.sum_cons, ihb]
        omega

/-! ### Claim C1 and C7 theorems -/

/-- C1: evaluation of `split_range` at the failing input
`start = 4, max = 10, breaks = 2`.  The code returns `[(4, 5), (9, 10)]`:
the first range ends at 5 while the second starts at 9, so the ranges are
neither contiguous nor gap-free and their union misses `[5, 9]` — the
claimed partition of `[start, max]` fails for `start > 0` (the loop
initialises its running `end` at `0` rather than at `start` and divides
`max` rather than `max - start`). -/
theorem split_range_failing_input_eval : split_range 4 10 2 = [(4, 5), (9, 10)] := by
  decide

/-- C7: starting from `MaxLoopCondition{max := k, index := 0}`, `stop()`
returns `false` exactly `k` times before the first `true`; after
`split_to_threads n` (with `n ≥ 1`) each returned piece is well-formed
(`index ≤ max`), its `stop()` yields `false` exactly `falseCount` times
before `true`, and the pieces' false-counts sum to `k`. -/
theorem maxLoopCondition_stop_and_split_false_counts (k n : Nat) (hn : 1 ≤ n) :
    (∀ i, i < k → ((MaxLoopCondition.stopN ⟨k, 0⟩ i).stop).1 = false) ∧
    ((MaxLoopCondition.stopN ⟨k, 0⟩ k).stop).1 = true ∧
    (((MaxLoopCondition.mk k 0).split_to_threads n).map MaxLoopCondition.falseCount).sum = k ∧
    (∀ p ∈ (MaxLoopCondition.mk k 0).split_to_threads n,
      p.index ≤ p.max ∧
      (∀ i, i < p.falseCount → ((p.stopN i).stop).1 = false) ∧
      ((p.stopN p.falseCount).stop).1 = true) := by
  have hchain := splitRangeAux_chain k (k / n) n 0 (by omega)
    (by simpa using Nat.div_mul_le_self k n)
  obtain ⟨hwf, hsum⟩ := hchain
  refine ⟨?_, ?_, ?_, ?_⟩
  · intro i hi
    exact stopN_stop_false k 0 i (Nat.zero_le k) (by omega)
  · have h := stopN_stop_true k 0 (Nat.zero_le k)
    rwa [Nat.sub_zero] at h
  · have hcomp : (MaxLoopCondition.falseCount ∘ fun p : Nat × Nat =>
        (⟨p.2, p.1⟩ : MaxLoopCondition)) = fun p : Nat × Nat => p.2 - p.1 := by
      funext p
      rfl
    rw [MaxLoopCondition.split_to_threads, List.map_map, hcomp]
    show ((splitRangeAux k (k / n) n 0 0).map fun p => p.2 - p.1).sum = k
    rw [hsum]
    omega
  · intro p hp
    rw [MaxLoopCondition.split_to_threads] at hp
    obtain ⟨q, hq, rfl⟩ := List.mem_map.mp hp
    have hqwf : q.1 ≤ q.2 := hwf q hq
    refine ⟨hqwf, ?_, ?_⟩
    · intro i hi
      exact stopN_stop_false q.2 q.1 i hqwf hi
    · exact stopN_stop_true q.2 q.1 hqwf

/-- Witness for C7 at `k = 5`, `n = 2`. -/
theorem maxLoopCondition_stop_and_split_false_counts_witness :
    1 ≤ 2 ∧
    (((MaxLoopCondition.mk 5 0).split_to_threads 2).map MaxLoopCondition.falseCount).sum = 5 :=
  ⟨by decide, (maxLoopCondition_stop_and_split_false_counts 5 2 (by decide)).2.2.1⟩

/-! ## Association-list model of the ordered node-state maps -/

/-- `GraphNodeState<D>` / `NodeStates<D>` (`src/network.rs`): an ordered
mapping from node id to `D`.  It is modelled as an association list; every
map built below has pairwise-distinct keys and a canonical entry order
(fixed by the id list it is built from), so `alookup` agrees with the
`BTreeMap` lookup and list equality agrees with `BTreeMap` equality. -/
abbrev GraphNodeState (α : Type) := List (Nat × α)

/-- `BTreeMap::get` on the association-list model. -/
def alookup {α : Type} (k : Nat) : GraphNodeState α → Option α
  | [] => none
  | (k2, v) :: rest => if k = k2 then some v else alookup k rest

/-- `BTreeMap::insert` on the association-list model: replace the binding
if the key is present, append it otherwise. -/
def mapInsert {α : Type} (k : Nat) (v : α) : GraphNodeState α → GraphNodeState α
  | [] => [(k, v)]
  | (k2, v2) :: rest =>
    if k = k2 then (k, v) :: rest else (k2, v2) :: mapInsert k v rest

/-! ## `src/analyses/mod.rs` and `src/roll_up.rs` -/

/-- `VISIBLE_VAL` (`src/analyses/mod.rs`, line 3). -/
def VISIBLE_VAL : Nat := 1

/-- `MAX_OPERABILITY` (`src/roll_up.rs`). -/
def MAX_OPERABILITY : ℚ := 1

/-- `MIN_OPERABILITY` (`src/roll_up.rs`). -/
def MIN_OPERABILITY : ℚ := 0

/-- `RollUp::get_value` (`src/roll_up.rs`, lines 8-22), parameterised by the
rule-specific `compute_val` exactly as the trait's provided method is. -/
def getValue (computeVal : Nat → List Nat → GraphNodeState ℚ → ℚ)
    (t_id : Nat) (children : List Nat)
    (visibilities : GraphNodeState Nat) (values : GraphNodeState ℚ) : ℚ :=
  if children = [] then MAX_OPERABILITY
  else
    match alookup t_id visibilities with
    | none => computeVal t_id children values
    | some x => if x = VISIBLE_VAL then computeVal t_id children values else MIN_OPERABILITY

/-- Loop of `OrRule::compute_val` (`src/roll_up.rs`, lines 27-44): `m` is
the running mutable `max`, initialised to `MIN_OPERABILITY`; a child missing
from `values` short-circuits to `MAX_OPERABILITY`. -/
def orComputeValAux (values : GraphNodeState ℚ) : List Nat → ℚ → ℚ
  | [], m => m
  | child :: rest, m =>
    match alookup child values with
    | none => MAX_OPERABILITY
    | some v => orComputeValAux values rest (if m < v then v else m)

/-- `OrRule::compute_val` (the `_t_id` argument is unused by the rule). -/
def orComputeVal (_t_id : Nat) (children : List Nat) (values : GraphNodeState ℚ) : ℚ :=
  orComputeValAux values children MIN_OPERABILITY

/-! ### Helper lemmas for `OrRule` -/

theorem orComputeValAux_missing (values : GraphNodeState ℚ) :
    ∀ cs m, (∃ c ∈ cs, alookup c values = none) → orComputeValAux values cs m = 1 := by
  intro cs
  induction cs with
  | nil => intro m h; obtain ⟨c, hc, _⟩ := h; exact absurd hc (List.not_mem_nil c)
  | cons c rest ih =>
    intro m h
    rw [orComputeValAux]
    obtain ⟨c2, hc2, hnone⟩ := h
    rcases List.mem_cons.mp hc2 with rfl | hmem
    · rw [hnone]
      rfl
    · cases hl : alookup c values with
      | none => rfl
      | some v => exact ih _ ⟨c2, hmem, hnone⟩

theorem orComputeValAux_bounds (values : GraphNodeState ℚ) :
    ∀ cs m, (∀ c ∈ cs, (alookup c values).isSome) →
    m ≤ orComputeValAux values cs m ∧
    (∀ c ∈ cs, ∀ v, alookup c values = some v → v ≤ orComputeValAux values cs m) := by
  intro cs
  induction cs with
  | nil =>
    intro m _
    exact ⟨le_refl m, fun c hc => absurd hc (List.not_mem_nil c)⟩
  | cons c rest ih =>
    intro m hall
    have hc : (alookup c values).isSome := hall c (List.mem_cons_self c rest)
    obtain ⟨v, hv⟩ := Option.isSome_iff_exists.mp hc
    have hrest : ∀ c2 ∈ rest, (alookup c2 values).isSome :=
      fun c2 hc2 => hall c2 (List.mem_cons_of_mem c hc2)
    obtain ⟨ih1, ih2⟩ := ih (if m < v then v else m) hrest
    have hstep : orComputeValAux values (c :: rest) m
        = orComputeValAux values rest (if m < v then v else m) := by
      rw [orComputeValAux, hv]
    have hm : m ≤ if m < v then v else m := by
      by_cases h : m < v
      · rw [if_pos h]; exact le_of_lt h
      · rw [if_neg h]
    have hvle : v ≤ if m < v then v else m := by
      by_cases h : m < v
      · rw [if_pos h]
      · rw [if_neg h]; exact le_of_not_lt h
    refine ⟨?_, ?_⟩
    · rw [hstep]; exact hm.trans ih1
    · intro c2 hc2 v2 hv2
      rcases List.mem_cons.mp hc2 with rfl | hmem
      · rw [hv] at hv2
        injection hv2 with hv2
        rw [hstep, ← hv2]
        exact hvle.trans ih1
      · rw [hstep]
        exact ih2 c2 hmem v2 hv2

theorem orComputeValAux_mem (values : GraphNodeState ℚ) :
    ∀ cs m, (∀ c ∈ cs, (alookup c values).isSome) →
    orComputeValAux values cs m = m ∨
    ∃ c ∈ cs, alookup c values = some (orComputeValAux values cs m) := by
  intro cs
  induction cs with
  | nil => intro m _; exact Or.inl rfl
  | cons c rest ih =>
    intro m hall
    have hc : (alookup c values).isSome := hall c (List.mem_cons_self c rest)
    obtain ⟨v, hv⟩ := Option.isSome_iff_exists.mp hc
    have hrest : ∀ c2 ∈ rest, (alookup c2 values).isSome :=
      fun c2 hc2 => hall c2 (List.mem_cons_of_mem c hc2)
    have hstep : orComputeValAux values (c :: rest) m
        = orComputeValAux values rest (if m < v then v else m) := by
      rw [orComputeValAux, hv]
    rcases ih (if m < v then v else m) hrest with heq | ⟨c2, hc2, hsome⟩
    · by_cases h : m < v
      · refine Or.inr ⟨c, List.mem_cons_self c rest, ?_⟩
        rw [hstep, heq, if_pos h, hv]
      · refine Or.inl ?_
        rw [hstep, heq, if_neg h]
    · exact Or.inr ⟨c2, List.mem_cons_of_mem c hc2, by rw [hstep]; exact hsome⟩

/-! ### Claim C4 and C5 theorems -/

/-- C4: `RollUp::get_value` evaluates its contract in order: an empty
predecessor list returns 1.0 regardless of the node's visibility flag (even
for a node marked not-visible); otherwise a node absent from the visibility
sample or present with the visible sentinel delegates to the rule's
combination function; otherwise (present and not-visible) it returns 0.0
regardless of the predecessors' values. -/
theorem getValue_contract (computeVal : Nat → List Nat → GraphNodeState ℚ → ℚ)
    (t_id : Nat) (children : List Nat)
    (visibilities : GraphNodeState Nat) (values : GraphNodeState ℚ) :
    (children = [] → getValue computeVal t_id children visibilities values = 1) ∧
    (children ≠ [] →
      (alookup t_id visibilities = none ∨ alookup t_id visibilities = some VISIBLE_VAL) →
      getValue computeVal t_id children visibilities values
        = computeVal t_id children values) ∧
    (children ≠ [] → ∀ x, alookup t_id visibilities = some x → x ≠ VISIBLE_VAL →
      getValue computeVal t_id children visibilities values = 0) := by
  refine ⟨?_, ?_, ?_⟩
  · intro h
    subst h
    rfl
  · intro hne hvis
    unfold getValue
    rw [if_neg hne]
    rcases hvis with hv | hv
    · rw [hv]
    · rw [hv]
      show (if VISIBLE_VAL = VISIBLE_VAL then computeVal t_id children values
        else MIN_OPERABILITY) = computeVal t_id children values
      rw [if_pos rfl]
  · intro hne x hx hxv
    unfold getValue
    rw [if_neg hne, hx]
    show (if x = VISIBLE_VAL then computeVal t_id children values
      else MIN_OPERABILITY) = 0
    rw [if_neg hxv]
    rfl

/-- Witness for C4: a node with no predecessors marked not-visible still
yields 1.0, and a not-visible node with a predecessor yields 0.0. -/
theorem getValue_contract_witness :
    getValue orComputeVal 2 [] [(2, 0)] [] = 1 ∧
    (([1] : List Nat) ≠ [] ∧ alookup 2 ([(2, 0)] : GraphNodeState Nat) = some 0 ∧
      (0 : Nat) ≠ VISIBLE_VAL ∧
      getValue orComputeVal 2 [1] [(2, 0)] [(1, (1 : ℚ)/2)] = 0) :=
  ⟨(getValue_contract orComputeVal 2 [] [(2, 0)] []).1 rfl,
    by decide, rfl, by decide,
    (getValue_contract orComputeVal 2 [1] [(2, 0)] [(1, (1 : ℚ)/2)]).2.2
      (by decide) 0 rfl (by decide)⟩

/-- C5: `OrRule::compute_val` short-circuits to 1.0 when any predecessor is
missing from the values map; when every predecessor is present (with a
nonnegative operability value, as all propagated values are), the result is
the maximum of the predecessors' values: it is one of them and bounds all
of them. -/
theorem orRule_compute_val_spec (t_id : Nat) (children : List Nat)
    (values : GraphNodeState ℚ) :
    ((∃ c ∈ children, alookup c values = none) →
      orComputeVal t_id children values = 1) ∧
    (children ≠ [] →
      (∀ c ∈ children, ∃ v, alookup c values = some v ∧ 0 ≤ v) →
      (∃ c ∈ children, alookup c values = some (orComputeVal t_id children values)) ∧
      (∀ c ∈ children, ∀ v, alookup c values = some v →
        v ≤ orComputeVal t_id children values)) := by
  constructor
  · intro h
    exact orComputeValAux_missing values children MIN_OPERABILITY h
  · intro hne hall
    have hsome : ∀ c ∈ children, (alookup c values).isSome := by
      intro c hc
      obtain ⟨v, hv, _⟩ := hall c hc
      rw [hv]
      rfl
    obtain ⟨hle0, hub⟩ := orComputeValAux_bounds values children MIN_OPERABILITY hsome
    refine ⟨?_, hub⟩
    rcases orComputeValAux_mem values children MIN_OPERABILITY hsome with heq | hmem
    · obtain ⟨c0, hc0⟩ := List.exists_mem_of_ne_nil children hne
      obtain ⟨v0, hv0, hv0nn⟩ := hall c0 hc0
      have hup := hub c0 hc0 v0 hv0
      have hv0eq : v0 = orComputeVal t_id children values := by
        unfold orComputeVal
        rw [heq]
        unfold orComputeVal at hup
        rw [heq] at hup
        exact le_antisymm hup hv0nn
      exact ⟨c0, hc0, by rw [hv0, hv0eq]⟩
    · exact hmem

/-- Witness for C5: predecessors valued `{0.2, 0.7, 0.4}` yield `0.7`. -/
theorem orRule_compute_val_spec_witness :
    orComputeVal 0 [1, 2, 3]
      [(1, (1 : ℚ)/5), (2, (7 : ℚ)/10), (3, (2 : ℚ)/5)] = 7/10 ∧
    (∃ c ∈ ([1, 2, 3] : List Nat),
      alookup c [(1, (1 : ℚ)/5), (2, (7 : ℚ)/10), (3, (2 : ℚ)/5)]
        = some (orComputeVal 0 [1, 2, 3]
            [(1, (1 : ℚ)/5), (2, (7 : ℚ)/10), (3, (2 : ℚ)/5)])) ∧
    (∀ c ∈ ([1, 2, 3] : List Nat), ∀ v,
      alookup c [(1, (1 : ℚ)/5), (2, (7 : ℚ)/10), (3, (2 : ℚ)/5)] = some v →
      v ≤ orComputeVal 0 [1, 2, 3]
            [(1, (1 : ℚ)/5), (2, (7 : ℚ)/10), (3, (2 : ℚ)/5)]) := by
  have h := (orRule_compute_val_spec 0 [1, 2, 3]
      [(1, (1 : ℚ)/5), (2, (7 : ℚ)/10), (3, (2 : ℚ)/5)]).2
    (by decide)
    (by
      intro c hc
      fin_cases hc
      · exact ⟨(1 : ℚ)/5, rfl, by norm_num⟩
      · exact ⟨(7 : ℚ)/10, rfl, by norm_num⟩
      · exact ⟨(2 : ℚ)/5, rfl, by norm_num⟩)
  exact ⟨by norm_num [orComputeVal, orComputeValAux, alookup, MIN_OPERABILITY,
    MAX_OPERABILITY], h.1, h.2⟩

/-! ## `src/analyses/criticality/vis_gen.rs` : `RandomGen` -/

/-- `DEFAULT_OFF_CHANCE` (`src/analyses/criticality/vis_gen.rs`). -/
def DEFAULT_OFF_CHANCE : ℚ := 1/2

/-- `RandomGen` (`src/analyses/criticality/vis_gen.rs`): the `StdRng` is
modelled as the stream of uniform draws in `[0,1)` that it yields (`rng n`
is the result of the `n`-th `gen()` call) together with `pos`, the number
of draws consumed so far; `ids` is the dynamic id set in its iteration
order and `off_chances` the per-node off-chance configuration. -/
structure RandomGen where
  rng : Nat → ℚ
  pos : Nat
  ids : List Nat
  off_chances : GraphNodeState ℚ

/-- Loop body of `RandomGen::next_states` (lines 23-35): one fresh draw per
id, in id-set iteration order; the id is flagged 0 (not visible) when
`off_chance < draw` and 1 (visible) otherwise, with the off chance
defaulting to `DEFAULT_OFF_CHANCE` when the id is unconfigured. -/
def nextStatesAux (rng : Nat → ℚ) (off_chances : GraphNodeState ℚ) :
    List Nat → Nat → GraphNodeState Nat
  | [], _ => []
  | i :: rest, pos =>
    (i, if (alookup i off_chances).getD DEFAULT_OFF_CHANCE < rng pos then 0 else 1)
      :: nextStatesAux rng off_chances rest (pos + 1)

/-- `RandomGen::next_states`: produces the sample and the generator with
its random source advanced past the consumed draws. -/
def RandomGen.next_states (g : RandomGen) : GraphNodeState Nat × RandomGen :=
  (nextStatesAux g.rng g.off_chances g.ids g.pos,
   { g with pos := g.pos + g.ids.length })

theorem nextStatesAux_lookup (rng : Nat → ℚ) (oc : GraphNodeState ℚ) :
    ∀ (ids : List Nat) (pos j : Nat) (hj : j < ids.length), ids.Nodup →
    alookup (ids.get ⟨j, hj⟩) (nextStatesAux rng oc ids pos)
      = some (if (alookup (ids.get ⟨j, hj⟩) oc).getD DEFAULT_OFF_CHANCE < rng (pos + j)
          then 0 else 1) := by
  intro ids
  induction ids with
  | nil => intro pos j hj _; exact absurd hj (by simp)
  | cons i rest ih =>
    intro pos j hj hnd
    rcases j with _ | j2
    · have hget : (i :: rest).get ⟨0, hj⟩ = i := rfl
      rw [hget, nextStatesAux, alookup, if_pos rfl, Nat.add_zero]
    · have hj2 : j2 < rest.length := by simpa using hj
      have hget : (i :: rest).get ⟨j2 + 1, hj⟩ = rest.get ⟨j2, hj2⟩ := rfl
      rw [hget, nextStatesAux, alookup]
      have hne : ¬ (rest.get ⟨j2, hj2⟩ = i) := by
        intro heq
        have hmem : i ∈ rest := heq ▸ rest.get_mem j2 hj2
        exact (List.nodup_cons.mp hnd).1 hmem
      rw [if_neg hne, ih (pos + 1) j2 hj2 (List.nodup_cons.mp hnd).2]
      have harith : pos + 1 + j2 = pos + (j2 + 1) := by omega
      rw [harith]

/-! ### Claim C3 theorems -/

/-- C3 counterexample: with off chance 1/2 configured for id 7 and a draw
exactly equal to 1/2, one call of `next_states` marks the id visible
(flag 1), not not-visible as the claim ("a draw exactly equal to the off
chance yields not-visible") requires. -/
theorem next_states_equal_draw_counterexample :
    alookup 7 ((RandomGen.mk (fun _ => (1 : ℚ)/2) 0 [7] [(7, (1 : ℚ)/2)]).next_states).1
      = some 1 ∧ ((1 : ℚ)/2 ≥ (1 : ℚ)/2) := by
  constructor
  · show alookup 7 (nextStatesAux (fun _ => (1 : ℚ)/2) [(7, (1 : ℚ)/2)] [7] 0) = some 1
    rw [nextStatesAux, nextStatesAux]
    have hc : ¬ ((alookup 7 [(7, (1 : ℚ)/2)]).getD DEFAULT_OFF_CHANCE
        < (fun _ => (1 : ℚ)/2) 0) := by
      show ¬ ((1 : ℚ)/2 < (1 : ℚ)/2)
      norm_num
    rw [if_neg hc, alookup, if_pos rfl]
  · norm_num

/-- C3 (amended): for every configured dynamic id (the `j`-th in iteration
order) and draw `r` in `[0,1)`, `next_states` flags the id 0 (not visible)
iff `r` is strictly greater than the node's off chance — defaulting to 1/2
when unconfigured — and 1 (visible) iff `r ≤ off chance`; in particular a
draw exactly equal to the off chance yields visible. -/
theorem next_states_flag_spec (g : RandomGen) (j : Nat) (hj : j < g.ids.length)
    (hnd : g.ids.Nodup) (hlo : 0 ≤ g.rng (g.pos + j)) (hhi : g.rng (g.pos + j) < 1) :
    alookup (g.ids.get ⟨j, hj⟩) (g.next_states).1
      = some (if (alookup (g.ids.get ⟨j, hj⟩) g.off_chances).getD DEFAULT_OFF_CHANCE
          < g.rng (g.pos + j) then 0 else 1) ∧
    (alookup (g.ids.get ⟨j, hj⟩) (g.next_states).1 = some 0 ↔
      (alookup (g.ids.get ⟨j, hj⟩) g.off_chances).getD DEFAULT_OFF_CHANCE
        < g.rng (g.pos + j)) ∧
    (alookup (g.ids.get ⟨j, hj⟩) (g.next_states).1 = some 1 ↔
      g.rng (g.pos + j)
        ≤ (alookup (g.ids.get ⟨j, hj⟩) g.off_chances).getD DEFAULT_OFF_CHANCE) := by
  have h0 := nextStatesAux_lookup g.rng g.off_chances g.ids g.pos j hj hnd
  have h : alookup (g.ids.get ⟨j, hj⟩) (g.next_states).1
      = some (if (alookup (g.ids.get ⟨j, hj⟩) g.off_chances).getD DEFAULT_OFF_CHANCE
          < g.rng (g.pos + j) then 0 else 1) := h0
  refine ⟨h, ?_, ?_⟩
  · rw [h]
    by_cases hc : (alookup (g.ids.get ⟨j, hj⟩) g.off_chances).getD DEFAULT_OFF_CHANCE
        < g.rng (g.pos + j)
    · rw [if_pos hc]
      exact ⟨fun _ => hc, fun _ => rfl⟩
    · rw [if_neg hc]
      constructor
      · intro h10
        exact absurd h10 (by simp)
      · intro hlt
        exact absurd hlt hc
  · rw [h]
    by_cases hc : (alookup (g.ids.get ⟨j, hj⟩) g.off_chances).getD DEFAULT_OFF_CHANCE
        < g.rng (g.pos + j)
    · rw [if_pos hc]
      constructor
      · intro h01
        exact absurd h01 (by simp)
      · intro hle
        exact absurd hc (not_lt.mpr hle)
    · rw [if_neg hc]
      exact ⟨fun _ => not_lt.mp hc, fun _ => rfl⟩

/-- Witness for C3 at id 7, off chance 1/2, draw 3/4: flagged not-visible. -/
theorem next_states_flag_spec_witness :
    (0 : ℚ) ≤ 3/4 ∧ (3 : ℚ)/4 < 1 ∧
    alookup 7 ((RandomGen.mk (fun _ => (3 : ℚ)/4) 0 [7] [(7, (1 : ℚ)/2)]).next_states).1
      = some 0 := by
  have h := next_states_flag_spec
    (RandomGen.mk (fun _ => (3 : ℚ)/4) 0 [7] [(7, (1 : ℚ)/2)]) 0
    (by decide) (by decide) (by norm_num) (by norm_num)
  refine ⟨by norm_num, by norm_num, h.2.1.mpr ?_⟩
  show (1 : ℚ)/2 < 3/4
  norm_num

/-! ## `src/network.rs` -/

/-- `Node` (`src/network.rs`). -/
structure Node where
  name : String
  id : Nat
  deriving Repr, DecidableEq

/-- `Edge` (`src/network.rs`); the Rust fields `from`/`to` are renamed
`src`/`dst` because `from` is a Lean keyword. -/
structure Edge where
  src : Nat
  dst : Nat
  deriving Repr, DecidableEq

/-- `Graph` (`src/network.rs`): the node `HashMap` is modelled as an
association list in iteration order with pairwise-distinct keys, the edge
`HashSet` as a duplicate-free list in iteration order. -/
structure Graph where
  nodes : GraphNodeState Node
  edges : List Edge
  static_nodes : List Nat

/-- `Graph::new`. -/
def Graph.new : Graph :=
  { nodes := [], edges := [], static_nodes := [] }

/-- `Graph::add_node` : `self.nodes.insert(id, Node { name, id })`.  (The
Rust return value — the displaced node — is unused by `deep_clone` and
omitted here.) -/
def Graph.add_node (g : Graph) (name : String) (id : Nat) : Graph :=
  { g with nodes := mapInsert id ⟨name, id⟩ g.nodes }

/-- `Graph::add_edge` : `self.edges.insert(Edge { from, to })`; `HashSet`
insertion adds the edge only if not already present.  (The Bool result is
unused by `deep_clone` and omitted here.) -/
def Graph.add_edge (g : Graph) (a b : Nat) : Graph :=
  { g with edges := if Edge.mk a b ∈ g.edges then g.edges else g.edges ++ [Edge.mk a b] }

/-- `Graph::deep_clone` (`src/network.rs`, lines 101-110): builds a fresh
graph with `Graph::new`, re-adds every node (keyed by the node's own `id`
field) and every edge — and never touches `static_nodes`. -/
def Graph.deep_clone (g : Graph) : Graph :=
  (g.edges.foldl (fun c e => c.add_edge e.src e.dst)
    (g.nodes.foldl (fun c p => c.add_node p.2.name p.2.id) Graph.new))

/-- `LinkMap` (`src/network.rs`): id → (predecessor ids, successor ids);
the `HashMap` is modelled as an association list in iteration order with
pairwise-distinct keys. -/
abbrev LinkMap := List (Nat × (List Nat × List Nat))

/-- `StartNodeError` (`src/errors.rs`), carrying the candidate list. -/
structure StartNodeError where
  starts : List Nat
  deriving Repr, DecidableEq

/-- `EndNodeError` (`src/errors.rs`), carrying the candidate list. -/
structure EndNodeError where
  ends : List Nat
  deriving Repr, DecidableEq

/-- The `starts` list collected by `Graph::get_start_id`: the ids (in map
iteration order) whose predecessor list is empty. -/
def start_candidates (map : LinkMap) : List Nat :=
  (map.filter (fun p => p.2.1 = [])).map Prod.fst

/-- The `ends` list collected by `Graph::get_end_id`: the ids (in map
iteration order) whose successor list is empty. -/
def end_candidates (map : LinkMap) : List Nat :=
  (map.filter (fun p => p.2.2 = [])).map Prod.fst

/-- `Graph::get_start_id` (`src/network.rs`, lines 112-123). -/
def get_start_id (map : LinkMap) : Except StartNodeError Nat :=
  if (start_candidates map).length = 1 then .ok ((start_candidates map).headD 0)
  else .error ⟨start_candidates map⟩

/-- `Graph::get_end_id` (`src/network.rs`, lines 125-136). -/
def get_end_id (map : LinkMap) : Except EndNodeError Nat :=
  if (end_candidates map).length = 1 then .ok ((end_candidates map).headD 0)
  else .error ⟨end_candidates map⟩

/-! ### Helper lemmas for the discovery functions -/

theorem mem_start_candidates (map : LinkMap) (u : Nat) :
    u ∈ start_candidates map ↔ ∃ e, (u, e) ∈ map ∧ e.1 = [] := by
  unfold start_candidates
  rw [List.mem_map]
  constructor
  · rintro ⟨p, hp, rfl⟩
    rw [List.mem_filter] at hp
    exact ⟨p.2, hp.1, by simpa using hp.2⟩
  · rintro ⟨e, hmem, he⟩
    exact ⟨(u, e), List.mem_filter.mpr ⟨hmem, by simpa using he⟩, rfl⟩

theorem mem_end_candidates (map : LinkMap) (u : Nat) :
    u ∈ end_candidates map ↔ ∃ e, (u, e) ∈ map ∧ e.2 = [] := by
  unfold end_candidates
  rw [List.mem_map]
  constructor
  · rintro ⟨p, hp, rfl⟩
    rw [List.mem_filter] at hp
    exact ⟨p.2, hp.1, by simpa using hp.2⟩
  · rintro ⟨e, hmem, he⟩
    exact ⟨(u, e), List.mem_filter.mpr ⟨hmem, by simpa using he⟩, rfl⟩

theorem start_candidates_nodup (map : LinkMap) (hnd : (map.map Prod.fst).Nodup) :
    (start_candidates map).Nodup :=
  hnd.sublist ((List.filter_sublist map).map Prod.fst)

theorem end_candidates_nodup (map : LinkMap) (hnd : (map.map Prod.fst).Nodup) :
    (end_candidates map).Nodup :=
  hnd.sublist ((List.filter_sublist map).map Prod.fst)

theorem nodup_unique_singleton (cands : List Nat) (hnd : cands.Nodup) (u : Nat) :
    (u ∈ cands ∧ ∀ v ∈ cands, v = u) ↔ cands = [u] := by
  constructor
  · rintro ⟨hu, hall⟩
    cases cands with
    | nil => exact absurd hu (List.not_mem_nil u)
    | cons c rest =>
      have hc : c = u := hall c (List.mem_cons_self c rest)
      have hrest : rest = [] := by
        cases rest with
        | nil => rfl
        | cons d rest2 =>
          have hd : d = u := hall d (by simp)
          have hninf : c ∉ d :: rest2 := (List.nodup_cons.mp hnd).1
          exact absurd (by rw [hc, ← hd]; exact List.mem_cons_self d rest2) hninf
      rw [hc, hrest]
  · rintro rfl
    exact ⟨List.mem_singleton_self u, fun v hv => List.mem_singleton.mp hv⟩

theorem if_length_ok_iff {E : Type} (cands : List Nat) (err : E) (u : Nat) :
    ((if cands.length = 1 then (Except.ok (cands.headD 0) : Except E Nat)
      else .error err) = .ok u) ↔ cands = [u] := by
  by_cases hl : cands.length = 1
  · rw [if_pos hl]
    obtain ⟨c, hc⟩ := List.length_eq_one.mp hl
    rw [hc]
    constructor
    · intro h
      have : c = u := by simpa using h
      rw [this]
    · intro h
      have : c = u := by simpa using h
      rw [this]
      rfl
  · rw [if_neg hl]
    constructor
    · intro h
      exact absurd h (by simp)
    · intro h
      rw [h] at hl
      exact absurd (by simp) hl

theorem if_length_error {E : Type} (cands : List Nat) (err err2 : E) :
    ((if cands.length = 1 then (Except.ok (cands.headD 0) : Except E Nat)
      else .error err) = .error err2) → err2 = err ∧ cands.length ≠ 1 := by
  by_cases hl : cands.length = 1
  · rw [if_pos hl]
    intro h
    exact absurd h (by simp)
  · rw [if_neg hl]
    intro h
    have : err = err2 := by simpa using h
    exact ⟨this.symm, hl⟩

theorem start_candidates_nil_iff (map : LinkMap) :
    start_candidates map = [] ↔ ∀ q ∈ map, q.2.1 ≠ [] := by
  constructor
  · intro hnil q hq hq1
    have hmem : q.1 ∈ start_candidates map :=
      (mem_start_candidates map q.1).mpr ⟨q.2, hq, hq1⟩
    rw [hnil] at hmem
    exact absurd hmem (List.not_mem_nil q.1)
  · intro hall
    by_contra hne
    obtain ⟨v, hv⟩ := List.exists_mem_of_ne_nil _ hne
    obtain ⟨e, hmem, he⟩ := (mem_start_candidates map v).mp hv
    exact hall (v, e) hmem he

theorem end_candidates_nil_iff (map : LinkMap) :
    end_candidates map = [] ↔ ∀ q ∈ map, q.2.2 ≠ [] := by
  constructor
  · intro hnil q hq hq1
    have hmem : q.1 ∈ end_candidates map :=
      (mem_end_candidates map q.1).mpr ⟨q.2, hq, hq1⟩
    rw [hnil] at hmem
    exact absurd hmem (List.not_mem_nil q.1)
  · intro hall
    by_contra hne
    obtain ⟨v, hv⟩ := List.exists_mem_of_ne_nil _ hne
    obtain ⟨e, hmem, he⟩ := (mem_end_candidates map v).mp hv
    exact hall (v, e) hmem he

/-! ### Claim C9 theorem -/

/-- C9: for every link map (with distinct keys, as a `HashMap` iteration
yields), `get_start_id` returns `Ok(u)` exactly when `u` is the unique id
whose predecessor list is empty, and otherwise fails with a
`StartNodeError` carrying the candidate list — empty iff no node
qualifies, never of length one; symmetrically `get_end_id` for the
successor lists and `EndNodeError`. -/
theorem discover_start_end_spec (map : LinkMap) (hnd : (map.map Prod.fst).Nodup) :
    (∀ u, get_start_id map = .ok u ↔
      ((∃ e, (u, e) ∈ map ∧ e.1 = []) ∧ ∀ q ∈ map, q.2.1 = [] → q.1 = u)) ∧
    (∀ err, get_start_id map = .error err →
      err.starts = start_candidates map ∧
      (err.starts = [] ↔ ∀ q ∈ map, q.2.1 ≠ []) ∧ err.starts.length ≠ 1) ∧
    (∀ u, get_end_id map = .ok u ↔
      ((∃ e, (u, e) ∈ map ∧ e.2 = []) ∧ ∀ q ∈ map, q.2.2 = [] → q.1 = u)) ∧
    (∀ err, get_end_id map = .error err →
      err.ends = end_candidates map ∧
      (err.ends = [] ↔ ∀ q ∈ map, q.2.2 ≠ []) ∧ err.ends.length ≠ 1) := by
  refine ⟨?_, ?_, ?_, ?_⟩
  · intro u
    unfold get_start_id
    rw [if_length_ok_iff (start_candidates map) (⟨start_candidates map⟩ : StartNodeError) u,
      ← nodup_unique_singleton _ (start_candidates_nodup map hnd) u]
    constructor
    · rintro ⟨hu, hall⟩
      refine ⟨(mem_start_candidates map u).mp hu, ?_⟩
      intro q hq hq1
      exact hall q.1 ((mem_start_candidates map q.1).mpr ⟨q.2, hq, hq1⟩)
    · rintro ⟨hu, hall⟩
      refine ⟨(mem_start_candidates map u).mpr hu, ?_⟩
      intro v hv
      obtain ⟨e, hmem, he⟩ := (mem_start_candidates map v).mp hv
      exact hall (v, e) hmem he
  · intro err herr
    unfold get_start_id at herr
    obtain ⟨heq, hlen⟩ :=
      if_length_error (start_candidates map) ⟨start_candidates map⟩ err herr
    subst heq
    exact ⟨rfl, start_candidates_nil_iff map, hlen⟩
  · intro u
    unfold get_end_id
    rw [if_length_ok_iff (end_candidates map) (⟨end_candidates map⟩ : EndNodeError) u,
      ← nodup_unique_singleton _ (end_candidates_nodup map hnd) u]
    constructor
    · rintro ⟨hu, hall⟩
      refine ⟨(mem_end_candidates map u).mp hu, ?_⟩
      intro q hq hq1
      exact hall q.1 ((mem_end_candidates map q.1).mpr ⟨q.2, hq, hq1⟩)
    · rintro ⟨hu, hall⟩
      refine ⟨(mem_end_candidates map u).mpr hu, ?_⟩
      intro v hv
      obtain ⟨e, hmem, he⟩ := (mem_end_candidates map v).mp hv
      exact hall (v, e) hmem he
  · intro err herr
    unfold get_end_id at herr
    obtain ⟨heq, hlen⟩ :=
      if_length_error (end_candidates map) ⟨end_candidates map⟩ err herr
    subst heq
    exact ⟨rfl, end_candidates_nil_iff map, hlen⟩

/-- Witness for C9 on the two-node chain `1 -> 2`: node 1 (no
predecessors) is discovered as start, node 2 (no successors) as end. -/
theorem discover_start_end_spec_witness :
    (([(1, (([] : List Nat), [2])), (2, ([1], ([] : List Nat)))].map Prod.fst).Nodup) ∧
    get_start_id [(1, (([] : List Nat), [2])), (2, ([1], ([] : List Nat)))] = .ok 1 ∧
    get_end_id [(1, (([] : List Nat), [2])), (2, ([1], ([] : List Nat)))] = .ok 2 := by
  have h := discover_start_end_spec
    [(1, (([] : List Nat), [2])), (2, ([1], ([] : List Nat)))] (by decide)
  refine ⟨by decide, ?_, ?_⟩
  · exact (h.1 1).mpr ⟨⟨(([] : List Nat), [2]), by decide, rfl⟩, by decide⟩
  · exact (h.2.2.1 2).mpr ⟨⟨(([1] : List Nat), ([] : List Nat)), by decide, rfl⟩, by decide⟩

/-! ### Helper lemmas for `deep_clone` -/

theorem alookup_mapInsert {α : Type} (k k2 : Nat) (v : α) (m : GraphNodeState α) :
    alookup k2 (mapInsert k v m) = if k2 = k then some v else alookup k2 m := by
  induction m with
  | nil => rfl
  | cons p rest ih =>
    obtain ⟨k3, v3⟩ := p
    by_cases h3 : k = k3
    · rw [mapInsert, if_pos h3]
      by_cases h2 : k2 = k
      · rw [alookup, if_pos h2, if_pos h2]
      · have h23 : ¬ (k2 = k3) := fun hh => h2 (by rw [hh, h3])
        rw [alookup, if_neg h2, if_neg h2, alookup, if_neg h23]
    · rw [mapInsert, if_neg h3]
      by_cases h2 : k2 = k3
      · have h2k : ¬ (k2 = k) := fun hh => h3 (by rw [← hh, h2])
        rw [alookup, if_pos h2, if_neg h2k, alookup, if_pos h2]
      · rw [alookup, if_neg h2, ih, alookup, if_neg h2]

theorem alookup_none_of_not_mem_keys {α : Type} (k : Nat) (l : GraphNodeState α)
    (h : k ∉ l.map Prod.fst) : alookup k l = none := by
  induction l with
  | nil => rfl
  | cons p rest ih =>
    obtain ⟨pk, pv⟩ := p
    have hne : ¬ (k = pk) := by
      intro hh
      exact h (by rw [hh]; exact List.mem_cons_self pk _)
    rw [alookup, if_neg hne]
    exact ih (fun hh => h (List.mem_cons_of_mem pk hh))

theorem foldl_add_node_nodes :
    ∀ (l : GraphNodeState Node) (c : Graph) (k : Nat),
    (∀ p ∈ l, p.2.id = p.1) → (l.map Prod.fst).Nodup →
    ((∀ v, alookup k l = some v →
      alookup k (l.foldl (fun c2 p => c2.add_node p.2.name p.2.id) c).nodes = some v) ∧
     (alookup k l = none →
      alookup k (l.foldl (fun c2 p => c2.add_node p.2.name p.2.id) c).nodes
        = alookup k c.nodes)) := by
  intro l
  induction l with
  | nil =>
    intro c k _ _
    exact ⟨fun v hv => absurd hv (by simp [alookup]), fun _ => rfl⟩
  | cons p rest ih =>
    intro c k hall hnd
    obtain ⟨pk, pv⟩ := p
    have hid : pv.id = pk := hall (pk, pv) (List.mem_cons_self _ _)
    have hrestid : ∀ q ∈ rest, q.2.id = q.1 :=
      fun q hq => hall q (List.mem_cons_of_mem _ hq)
    have hknd : pk ∉ rest.map Prod.fst ∧ (rest.map Prod.fst).Nodup := by
      rw [List.map_cons, List.nodup_cons] at hnd
      exact hnd
    have hnodes : (c.add_node pv.name pv.id).nodes = mapInsert pk pv c.nodes := by
      show mapInsert pv.id ⟨pv.name, pv.id⟩ c.nodes = mapInsert pk pv c.nodes
      have hv : (⟨pv.name, pv.id⟩ : Node) = pv := rfl
      rw [hv, hid]
    constructor
    · intro v hv
      simp only [List.foldl_cons]
      rw [alookup] at hv
      by_cases hk : k = pk
      · rw [if_pos hk] at hv
        have hnone : alookup k rest = none :=
          alookup_none_of_not_mem_keys k rest (by rw [hk]; exact hknd.1)
        have h2 := (ih (c.add_node pv.name pv.id) k hrestid hknd.2).2 hnone
        rw [h2, hnodes, alookup_mapInsert, if_pos hk]
        exact hv
      · rw [if_neg hk] at hv
        exact (ih (c.add_node pv.name pv.id) k hrestid hknd.2).1 v hv
    · intro hv
      simp only [List.foldl_cons]
      rw [alookup] at hv
      by_cases hk : k = pk
      · rw [if_pos hk] at hv
        exact absurd hv (by simp)
      · rw [if_neg hk] at hv
        have h2 := (ih (c.add_node pv.name pv.id) k hrestid hknd.2).2 hv
        rw [h2, hnodes, alookup_mapInsert, if_neg hk]

theorem foldl_add_node_edges (l : GraphNodeState Node) :
    ∀ c : Graph, (l.foldl (fun c2 p => c2.add_node p.2.name p.2.id) c).edges = c.edges := by
  induction l with
  | nil => intro c; rfl
  | cons p rest ih =>
    intro c
    rw [List.foldl_cons]
    exact ih _

theorem foldl_add_node_static (l : GraphNodeState Node) :
    ∀ c : Graph,
    (l.foldl (fun c2 p => c2.add_node p.2.name p.2.id) c).static_nodes = c.static_nodes := by
  induction l with
  | nil => intro c; rfl
  | cons p rest ih =>
    intro c
    rw [List.foldl_cons]
    exact ih _

theorem foldl_add_edge_nodes (l : List Edge) :
    ∀ c : Graph, (l.foldl (fun c2 e => c2.add_edge e.src e.dst) c).nodes = c.nodes := by
  induction l with
  | nil => intro c; rfl
  | cons d rest ih =>
    intro c
    rw [List.foldl_cons, ih (c.add_edge d.src d.dst)]
    rfl

theorem foldl_add_edge_static (l : List Edge) :
    ∀ c : Graph,
    (l.foldl (fun c2 e => c2.add_edge e.src e.dst) c).static_nodes = c.static_nodes := by
  induction l with
  | nil => intro c; rfl
  | cons d rest ih =>
    intro c
    rw [List.foldl_cons]
    exact ih _

theorem foldl_add_edge_mem (l : List Edge) :
    ∀ (c : Graph) (e : Edge),
    e ∈ (l.foldl (fun c2 e2 => c2.add_edge e2.src e2.dst) c).edges ↔ e ∈ c.edges ∨ e ∈ l := by
  induction l with
  | nil =>
    intro c e
    simp
  | cons d rest ih =>
    intro c e
    rw [List.foldl_cons, ih _ e]
    have hmem : e ∈ (c.add_edge d.src d.dst).edges ↔ e ∈ c.edges ∨ e = d := by
      show e ∈ (if Edge.mk d.src d.dst ∈ c.edges then c.edges
        else c.edges ++ [Edge.mk d.src d.dst]) ↔ _
      have hd : Edge.mk d.src d.dst = d := rfl
      rw [hd]
      by_cases hin : d ∈ c.edges
      · rw [if_pos hin]
        constructor
        · exact fun h => Or.inl h
        · rintro (h | rfl)
          · exact h
          · exact hin
      · rw [if_neg hin]
        simp [List.mem_append]
    rw [hmem]
    constructor
    · rintro ((h | rfl) | h)
      · exact Or.inl h
      · exact Or.inr (List.mem_cons_self _ _)
      · exact Or.inr (List.mem_cons_of_mem _ h)
    · rintro (h | h)
      · exact Or.inl (Or.inl h)
      · rcases List.mem_cons.mp h with rfl | h2
        · exact Or.inl (Or.inr rfl)
        · exact Or.inr h2

/-! ### Claim C10 theorem -/

/-- C10: `Graph::deep_clone` reproduces the node mapping (lookup by any id
agrees) and the edge set (membership agrees) of the original graph, but its
`static_nodes` set is always empty — the static ids are never copied, even
when the original's `static_nodes` is non-empty (witnessed below). -/
theorem deep_clone_spec (g : Graph)
    (hid : ∀ p ∈ g.nodes, p.2.id = p.1)
    (hnd : (g.nodes.map Prod.fst).Nodup) :
    (∀ k, alookup k (g.deep_clone).nodes = alookup k g.nodes) ∧
    (∀ e, e ∈ (g.deep_clone).edges ↔ e ∈ g.edges) ∧
    (g.deep_clone).static_nodes = [] := by
  unfold Graph.deep_clone
  refine ⟨?_, ?_, ?_⟩
  · intro k
    rw [foldl_add_edge_nodes]
    cases hv : alookup k g.nodes with
    | some v => exact (foldl_add_node_nodes g.nodes Graph.new k hid hnd).1 v hv
    | none =>
      rw [(foldl_add_node_nodes g.nodes Graph.new k hid hnd).2 hv]
      rfl
  · intro e
    rw [foldl_add_edge_mem g.edges _ e, foldl_add_node_edges]
    show e ∈ ([] : List Edge) ∨ e ∈ g.edges ↔ e ∈ g.edges
    simp
  · rw [foldl_add_edge_static, foldl_add_node_static]
    rfl

/-- Witness for C10 on a concrete two-node graph whose `static_nodes` is
non-empty: lookups and edge membership survive the clone while the cloned
`static_nodes` is empty. -/
theorem deep_clone_spec_witness :
    (∀ p ∈ [(1, Node.mk "a" 1), (2, Node.mk "b" 2)], (Prod.snd p).id = p.1) ∧
    ((Graph.mk [(1, Node.mk "a" 1), (2, Node.mk "b" 2)] [Edge.mk 1 2] [1, 2]).deep_clone).static_nodes = [] ∧
    (∀ k, alookup k
        ((Graph.mk [(1, Node.mk "a" 1), (2, Node.mk "b" 2)] [Edge.mk 1 2] [1, 2]).deep_clone).nodes
      = alookup k [(1, Node.mk "a" 1), (2, Node.mk "b" 2)]) :=
  ⟨by decide,
   (deep_clone_spec (Graph.mk [(1, Node.mk "a" 1), (2, Node.mk "b" 2)] [Edge.mk 1 2] [1, 2])
      (by decide) (by decide)).2.2,
   (deep_clone_spec (Graph.mk [(1, Node.mk "a" 1), (2, Node.mk "b" 2)] [Edge.mk 1 2] [1, 2])
      (by decide) (by decide)).1⟩

/-! ## `src/analyses/criticality/mod.rs` : the worker sampling loop -/

/-- `NodeCritData` (`src/analyses/criticality/mod.rs`). -/
structure NodeCritData where
  sum_end_on : ℚ
  sum_end_off : ℚ
  deriving Repr, DecidableEq

/-- `NodeCritData::add`: pairwise field addition. -/
def NodeCritData.add (d1 d2 : NodeCritData) : NodeCritData :=
  { sum_end_on := d1.sum_end_on + d2.sum_end_on,
    sum_end_off := d1.sum_end_off + d2.sum_end_off }

/-- `GraphCritData` (`src/analyses/criticality/mod.rs`); `node_data` is the
per-node map in the dynamic id set's iteration order. -/
structure GraphCritData where
  row_count : Nat
  end_op_sum : ℚ
  node_data : GraphNodeState NodeCritData
  deriving Repr, DecidableEq

/-- `GraphCritData::add`: field addition; each key of `self` is combined
with `d2.node_data.index(id)` (which panics when the key is absent from
`d2`; every call site uses the same key set, so the `.getD` default is
unreachable there). -/
def GraphCritData.add (d1 d2 : GraphCritData) : GraphCritData :=
  { row_count := d1.row_count + d2.row_count,
    end_op_sum := d1.end_op_sum + d2.end_op_sum,
    node_data := d1.node_data.map (fun p =>
      (p.1, p.2.add ((alookup p.1 d2.node_data).getD ⟨0, 0⟩))) }

/-- `Graph::roll_up_state` (`src/network.rs`, lines 86-99), parameterised
by the rule's `compute_val` (the `RollUp` objects used here keep the
trait's provided `get_value`): walk the traversal order, computing each
node's value from its predecessor list in the link map and inserting it
into the progressively built state.  (`l_map.get(node).unwrap()` panics on
a node missing from the map; the `.getD` default is unreachable on the
runs considered.) -/
def roll_up_state (computeVal : Nat → List Nat → GraphNodeState ℚ → ℚ)
    (graph_path : List Nat) (l_map : LinkMap)
    (visibilities : GraphNodeState Nat) : GraphNodeState ℚ :=
  graph_path.foldl (fun new_state node =>
    mapInsert node
      (getValue computeVal node ((alookup node l_map).getD ([], [])).1
        visibilities new_state) new_state) []

/-- The zero-initialised aggregate built by the first loop of
`Criticality::calculate_data` over the dynamic id set. -/
def critInitData (dynamic_ids : List Nat) : GraphCritData :=
  { row_count := 0, end_op_sum := 0,
    node_data := dynamic_ids.map (fun i => (i, ⟨0, 0⟩)) }

/-- Worker loop state of `Criticality::calculate_data`: the visibility
generator, the running aggregate and the seen-set of samples (`visited`). -/
structure LoopState where
  gen : RandomGen
  data : GraphCritData
  visited : List (GraphNodeState Nat)

/-- One iteration of the `while !loop_condition.stop()` body of
`Criticality::calculate_data` (`src/analyses/criticality/mod.rs`, lines
103-139): generate a sample; a duplicate is discarded without touching the
aggregate or the seen-set; a fresh sample is rolled up, folded into the
aggregate (`row_count = 1`, `end_op_sum` = end value, and per dynamic id
its own value into `sum_end_on`/`sum_end_off` by its own visibility bit)
and inserted into the seen-set.  (`result.get(..).unwrap()` panics on a
missing value; the `.getD` defaults are unreachable on the runs
considered.) -/
def critBody (computeVal : Nat → List Nat → GraphNodeState ℚ → ℚ)
    (l_map : LinkMap) (path : List Nat) (dynamic_ids : List Nat) (end_id : Nat)
    (st : LoopState) : LoopState :=
  let drawn := st.gen.next_states
  let visibility_state := drawn.1
  if visibility_state ∈ st.visited then
    { st with gen := drawn.2 }
  else
    let result := roll_up_state computeVal path l_map visibility_state
    let end_val := (alookup end_id result).getD 0
    let node_data := dynamic_ids.map (fun i =>
      let visible : Bool := match alookup i visibility_state with
        | none => true
        | some x => x = VISIBLE_VAL
      let state_val := (alookup i result).getD 0
      (i, if visible then (⟨state_val, 0⟩ : NodeCritData) else ⟨0, state_val⟩))
    { gen := drawn.2,
      data := st.data.add ⟨1, end_val, node_data⟩,
      visited := st.visited ++ [visibility_state] }

/-- The worker loop run for `n` body iterations.  With a
`MaxLoopCondition{max := k, index := i}` (for `i ≤ k`) guarding the `while`
loop, the body executes exactly `k - i` times (`stopN_stop_false` /
`stopN_stop_true`), so a whole-budget run is `critLoopN ... (k - i)`. -/
def critLoopN (computeVal : Nat → List Nat → GraphNodeState ℚ → ℚ)
    (l_map : LinkMap) (path : List Nat) (dynamic_ids : List Nat) (end_id : Nat) :
    Nat → LoopState → LoopState
  | 0, st => st
  | n + 1, st =>
    critLoopN computeVal l_map path dynamic_ids end_id n
      (critBody computeVal l_map path dynamic_ids end_id st)

/-! ### Helper lemmas for the worker loop -/

theorem critBody_dup (cv : Nat → List Nat → GraphNodeState ℚ → ℚ)
    (lm : LinkMap) (p di : List Nat) (ei : Nat) (st : LoopState)
    (h : (st.gen.next_states).1 ∈ st.visited) :
    critBody cv lm p di ei st = { st with gen := (st.gen.next_states).2 } := by
  simp only [critBody]
  rw [if_pos h]

theorem critBody_fresh_row_count (cv : Nat → List Nat → GraphNodeState ℚ → ℚ)
    (lm : LinkMap) (p di : List Nat) (ei : Nat) (st : LoopState)
    (h : (st.gen.next_states).1 ∉ st.visited) :
    (critBody cv lm p di ei st).data.row_count = st.data.row_count + 1 := by
  simp only [critBody]
  rw [if_neg h]
  rfl

theorem critBody_fresh_visited (cv : Nat → List Nat → GraphNodeState ℚ → ℚ)
    (lm : LinkMap) (p di : List Nat) (ei : Nat) (st : LoopState)
    (h : (st.gen.next_states).1 ∉ st.visited) :
    (critBody cv lm p di ei st).visited = st.visited ++ [(st.gen.next_states).1] := by
  simp only [critBody]
  rw [if_neg h]

theorem critLoopN_invariant (cv : Nat → List Nat → GraphNodeState ℚ → ℚ)
    (lm : LinkMap) (p di : List Nat) (ei : Nat) :
    ∀ (k : Nat) (st : LoopState),
    st.data.row_count = st.visited.length → st.visited.Nodup →
    ((critLoopN cv lm p di ei k st).data.row_count
        = (critLoopN cv lm p di ei k st).visited.length ∧
      (critLoopN cv lm p di ei k st).visited.Nodup ∧
      (critLoopN cv lm p di ei k st).visited.length ≤ st.visited.length + k) := by
  intro k
  induction k with
  | zero =>
    intro st h1 h2
    have h0 : critLoopN cv lm p di ei 0 st = st := rfl
    rw [h0]
    exact ⟨h1, h2, by omega⟩
  | succ n ih =>
    intro st h1 h2
    have hstep : critLoopN cv lm p di ei (n + 1) st
        = critLoopN cv lm p di ei n (critBody cv lm p di ei st) := rfl
    rw [hstep]
    by_cases hdup : (st.gen.next_states).1 ∈ st.visited
    · rw [critBody_dup cv lm p di ei st hdup]
      have he1 : ({ st with gen := (st.gen.next_states).2 } : LoopState).data = st.data := rfl
      have he2 : ({ st with gen := (st.gen.next_states).2 } : LoopState).visited
          = st.visited := rfl
      obtain ⟨ha, hb, hc⟩ := ih { st with gen := (st.gen.next_states).2 }
        (by rw [he1, he2]; exact h1) (by rw [he2]; exact h2)
      rw [he2] at hc
      exact ⟨ha, hb, by omega⟩
    · have hrow := critBody_fresh_row_count cv lm p di ei st hdup
      have hvis := critBody_fresh_visited cv lm p di ei st hdup
      have h1' : (critBody cv lm p di ei st).data.row_count
          = (critBody cv lm p di ei st).visited.length := by
        rw [hrow, hvis, List.length_append, h1]
        rfl
      have h2' : (critBody cv lm p di ei st).visited.Nodup := by
        rw [hvis]
        rw [List.nodup_append]
        exact ⟨h2, List.nodup_singleton _, by
          intro a ha hb
          rw [List.mem_singleton] at hb
          subst hb
          exact hdup ha⟩
      obtain ⟨ha, hb, hc⟩ := ih (critBody cv lm p di ei st) h1' h2'
      refine ⟨ha, hb, ?_⟩
      rw [hvis, List.length_append] at hc
      simp only [List.length_singleton] at hc
      omega

/-! ### Claim C6 theorem -/

/-- C6: an iteration whose generated visibility sample is already in the
worker's seen-set leaves the aggregate and the seen-set completely
unchanged (only the random source advances) while still consuming one of
the loop's body iterations; consequently a whole-budget run — with
`MaxLoopCondition{max := k, index := 0}` the `while !stop()` loop executes
its body exactly `k` times (`stopN_stop_false`/`stopN_stop_true`), i.e.
`critLoopN ... k` — produces a duplicate-free seen-set whose size equals
`row_count` (the number of distinct accepted samples), and `row_count ≤ k`. -/
theorem sampling_loop_dedup_and_row_count
    (cv : Nat → List Nat → GraphNodeState ℚ → ℚ)
    (lm : LinkMap) (p di : List Nat) (ei : Nat) (gen : RandomGen) (k : Nat) :
    (∀ st : LoopState, (st.gen.next_states).1 ∈ st.visited →
      (critBody cv lm p di ei st).data = st.data ∧
      (critBody cv lm p di ei st).visited = st.visited) ∧
    ((critLoopN cv lm p di ei k ⟨gen, critInitData di, []⟩).data.row_count
      = (critLoopN cv lm p di ei k ⟨gen, critInitData di, []⟩).visited.length) ∧
    (critLoopN cv lm p di ei k ⟨gen, critInitData di, []⟩).visited.Nodup ∧
    (critLoopN cv lm p di ei k ⟨gen, critInitData di, []⟩).data.row_count ≤ k := by
  have hinv := critLoopN_invariant cv lm p di ei k ⟨gen, critInitData di, []⟩ rfl List.nodup_nil
  refine ⟨?_, hinv.1, hinv.2.1, ?_⟩
  · intro st hdup
    rw [critBody_dup cv lm p di ei st hdup]
    exact ⟨rfl, rfl⟩
  · have hlen := hinv.2.2
    have h0 : (⟨gen, critInitData di, []⟩ : LoopState).visited.length = 0 := rfl
    rw [h0] at hlen
    rw [hinv.1]
    omega

/-- Witness for C6: a duplicate iteration (over the empty dynamic id set,
whose sample `[]` is already seen) leaves the aggregate untouched, and a
2-iteration run has `row_count ≤ 2`. -/
theorem sampling_loop_dedup_and_row_count_witness :
    ((⟨⟨fun _ => (0 : ℚ), 0, [], []⟩, critInitData [], [[]]⟩ : LoopState).gen.next_states).1
        ∈ (⟨⟨fun _ => (0 : ℚ), 0, [], []⟩, critInitData [], [[]]⟩ : LoopState).visited ∧
    (critBody orComputeVal [] [] [] 0
        ⟨⟨fun _ => (0 : ℚ), 0, [], []⟩, critInitData [], [[]]⟩).data = critInitData [] ∧
    (critLoopN orComputeVal [] [] [] 0 2
        ⟨⟨fun _ => (0 : ℚ), 0, [], []⟩, critInitData [], []⟩).data.row_count ≤ 2 := by
  have h := sampling_loop_dedup_and_row_count orComputeVal [] [] [] 0
    ⟨fun _ => (0 : ℚ), 0, [], []⟩ 2
  have hmem : ((⟨⟨fun _ => (0 : ℚ), 0, [], []⟩, critInitData [], [[]]⟩ : LoopState).gen.next_states).1
      ∈ (⟨⟨fun _ => (0 : ℚ), 0, [], []⟩, critInitData [], [[]]⟩ : LoopState).visited := by
    show ([] : GraphNodeState Nat) ∈ [[]]
    exact List.mem_singleton_self _
  exact ⟨hmem, (h.1 _ hmem).1, h.2.2.2⟩

/-! ### The 3-node chain scenario `leaf(10) -> mid(20) -> top(30)` -/

/-- Link map of the chain `10 -> 20 -> 30` (id → (predecessors, successors)). -/
def chainLinkMap : LinkMap := [(10, ([], [20])), (20, ([10], [30])), (30, ([20], []))]

/-- Breadth-first traversal order of the chain from its start node 10. -/
def chainPath : List Nat := [10, 20, 30]

/-- Fully evaluated else-branch of `critBody` (the fresh-sample case), with
the state destructured into its components. -/
theorem critBody_fresh_eq (cv : Nat → List Nat → GraphNodeState ℚ → ℚ)
    (lm : LinkMap) (p di : List Nat) (ei : Nat) (g : RandomGen)
    (D : GraphCritData) (vis : List (GraphNodeState Nat))
    (h : (g.next_states).1 ∉ vis) :
    critBody cv lm p di ei ⟨g, D, vis⟩ =
      { gen := (g.next_states).2,
        data := D.add ⟨1,
          (alookup ei (roll_up_state cv p lm (g.next_states).1)).getD 0,
          di.map (fun i =>
            (i, if (match alookup i (g.next_states).1 with
                  | none => true
                  | some x => decide (x = VISIBLE_VAL)) = true
              then (⟨(alookup i (roll_up_state cv p lm (g.next_states).1)).getD 0, 0⟩
                : NodeCritData)
              else ⟨0, (alookup i (roll_up_state cv p lm (g.next_states).1)).getD 0⟩))⟩,
        visited := vis ++ [(g.next_states).1] } := by
  show (if (g.next_states).1 ∈ vis then
      ({ gen := (g.next_states).2, data := D, visited := vis } : LoopState)
    else
      { gen := (g.next_states).2,
        data := D.add ⟨1,
          (alookup ei (roll_up_state cv p lm (g.next_states).1)).getD 0,
          di.map (fun i =>
            (i, if (match alookup i (g.next_states).1 with
                  | none => true
                  | some x => decide (x = VISIBLE_VAL)) = true
              then (⟨(alookup i (roll_up_state cv p lm (g.next_states).1)).getD 0, 0⟩
                : NodeCritData)
              else ⟨0, (alookup i (roll_up_state cv p lm (g.next_states).1)).getD 0⟩))⟩,
        visited := vis ++ [(g.next_states).1] }) = _
  rw [if_neg h]

/-- Roll-up of the chain under the sample `mid (20) visible`: every node
propagates to full operability 1. -/
theorem chain_roll_up_visible :
    roll_up_state orComputeVal chainPath chainLinkMap [(20, 1)]
      = [(10, 1), (20, 1), (30, 1)] := by
  norm_num [roll_up_state, chainPath, chainLinkMap, getValue, orComputeVal, orComputeValAux,
    alookup, mapInsert, VISIBLE_VAL, MIN_OPERABILITY, MAX_OPERABILITY]

/-- Roll-up of the chain under the sample `mid (20) not visible`: mid is
forced to 0 and the top node's OR over its single predecessor is 0. -/
theorem chain_roll_up_off :
    roll_up_state orComputeVal chainPath chainLinkMap [(20, 0)]
      = [(10, 1), (20, 0), (30, 0)] := by
  norm_num [roll_up_state, chainPath, chainLinkMap, getValue, orComputeVal, orComputeValAux,
    alookup, mapInsert, VISIBLE_VAL, MIN_OPERABILITY, MAX_OPERABILITY]

/-- With `off_chance = 1.0` for mid, every draw in `[0, 1)` yields the
sample `mid visible` (`¬ (1 < r)`), and the generator advances by one draw. -/
theorem chain_sample_visible (rng : Nat → ℚ) (pos : Nat) (hr : rng pos < 1) :
    ((RandomGen.mk rng pos [20] [(20, (1 : ℚ))]).next_states).1 = [(20, 1)] ∧
    ((RandomGen.mk rng pos [20] [(20, (1 : ℚ))]).next_states).2
      = RandomGen.mk rng (pos + 1) [20] [(20, (1 : ℚ))] := by
  constructor
  · show nextStatesAux rng [(20, (1 : ℚ))] [20] pos = [(20, 1)]
    rw [nextStatesAux, nextStatesAux]
    have hc : ¬ ((alookup 20 [(20, (1 : ℚ))]).getD DEFAULT_OFF_CHANCE < rng pos) := by
      show ¬ ((1 : ℚ) < rng pos)
      exact not_lt.mpr hr.le
    rw [if_neg hc]
  · rfl

/-- One fresh iteration of the chain run with `off_chance = 1.0`: the
sample `mid visible` is accepted and contributes `end value 1` and
`sum_end_on 1` for mid. -/
theorem chain_body_fresh (rng : Nat → ℚ) (pos : Nat) (hr : rng pos < 1)
    (D : GraphCritData) (vis : List (GraphNodeState Nat)) (hnv : [(20, 1)] ∉ vis) :
    critBody orComputeVal chainLinkMap chainPath [20] 30
        ⟨⟨rng, pos, [20], [(20, (1 : ℚ))]⟩, D, vis⟩
      = ⟨⟨rng, pos + 1, [20], [(20, (1 : ℚ))]⟩,
         D.add ⟨1, 1, [(20, ⟨1, 0⟩)]⟩, vis ++ [[(20, 1)]]⟩ := by
  obtain ⟨hs1, hs2⟩ := chain_sample_visible rng pos hr
  have hfresh : ((RandomGen.mk rng pos [20] [(20, (1 : ℚ))]).next_states).1 ∉ vis := by
    rw [hs1]
    exact hnv
  rw [critBody_fresh_eq orComputeVal chainLinkMap chainPath [20] 30 _ _ _ hfresh]
  rw [hs1, hs2, chain_roll_up_visible]
  rfl

/-- Every further iteration of the chain run is a duplicate of the sample
`mid visible`: only the random source advances. -/
theorem chain_loop_dup (rng : Nat → ℚ) (hrng : ∀ i, rng i < 1) (D : GraphCritData) :
    ∀ (j pos : Nat),
    critLoopN orComputeVal chainLinkMap chainPath [20] 30 j
        ⟨⟨rng, pos, [20], [(20, (1 : ℚ))]⟩, D, [[(20, 1)]]⟩
      = ⟨⟨rng, pos + j, [20], [(20, (1 : ℚ))]⟩, D, [[(20, 1)]]⟩ := by
  intro j
  induction j with
  | zero => intro pos; rfl
  | succ n ih =>
    intro pos
    obtain ⟨hs1, hs2⟩ := chain_sample_visible rng pos (hrng pos)
    have hstep : critLoopN orComputeVal chainLinkMap chainPath [20] 30 (n + 1)
          ⟨⟨rng, pos, [20], [(20, (1 : ℚ))]⟩, D, [[(20, 1)]]⟩
        = critLoopN orComputeVal chainLinkMap chainPath [20] 30 n
            (critBody orComputeVal chainLinkMap chainPath [20] 30
              ⟨⟨rng, pos, [20], [(20, (1 : ℚ))]⟩, D, [[(20, 1)]]⟩) := rfl
    rw [hstep]
    have hdup : (((⟨⟨rng, pos, [20], [(20, (1 : ℚ))]⟩, D, [[(20, 1)]]⟩ : LoopState).gen.next_states)).1
        ∈ (⟨⟨rng, pos, [20], [(20, (1 : ℚ))]⟩, D, [[(20, 1)]]⟩ : LoopState).visited := by
      show ((RandomGen.mk rng pos [20] [(20, (1 : ℚ))]).next_states).1 ∈ [[(20, 1)]]
      rw [hs1]
      exact List.mem_singleton_self _
    rw [critBody_dup orComputeVal chainLinkMap chainPath [20] 30 _ hdup]
    have hG : ({ (⟨⟨rng, pos, [20], [(20, (1 : ℚ))]⟩, D, [[(20, 1)]]⟩ : LoopState) with
          gen := ((⟨⟨rng, pos, [20], [(20, (1 : ℚ))]⟩, D, [[(20, 1)]]⟩
            : LoopState).gen.next_states).2 } : LoopState)
        = ⟨⟨rng, pos + 1, [20], [(20, (1 : ℚ))]⟩, D, [[(20, 1)]]⟩ := by
      show (⟨((RandomGen.mk rng pos [20] [(20, (1 : ℚ))]).next_states).2, D, [[(20, 1)]]⟩
        : LoopState) = _
      rw [hs2]
    rw [hG, ih (pos + 1)]
    have harith : pos + 1 + n = pos + (n + 1) := by omega
    rw [harith]

/-- The chain scenario run: OrRule, single dynamic id `mid = 20`,
`off_chance = 1.0` for mid, end id 30, budget `k`, draws from `rng`. -/
def chainRun (rng : Nat → ℚ) (k : Nat) : LoopState :=
  critLoopN orComputeVal chainLinkMap chainPath [20] 30 k
    ⟨⟨rng, 0, [20], [(20, (1 : ℚ))]⟩, critInitData [20], []⟩

/-! ### Claim C2 theorems -/

/-- C2 counterexample: configuring `off_chance = 0.0` for mid (id 20) —
the configuration the claim calls "always visible" — and a uniform draw of
1/2 makes `next_states` mark mid NOT visible (`0 < 1/2`); the accepted
sample rolls up to a top-node value of 0 (not 1.0), and after a budget of
one iteration the aggregate has `row_count = 1` while mid's
`sum_end_on = 0 ≠ row_count * 1.0`. -/
theorem chain_off_chance_zero_counterexample :
    alookup 30 (roll_up_state orComputeVal chainPath chainLinkMap [(20, 0)]) = some 0 ∧
    (critLoopN orComputeVal chainLinkMap chainPath [20] 30 1
        ⟨⟨fun _ => (1 : ℚ)/2, 0, [20], [(20, (0 : ℚ))]⟩, critInitData [20], []⟩).data.row_count
      = 1 ∧
    alookup 20 (critLoopN orComputeVal chainLinkMap chainPath [20] 30 1
        ⟨⟨fun _ => (1 : ℚ)/2, 0, [20], [(20, (0 : ℚ))]⟩, critInitData [20], []⟩).data.node_data
      = some ⟨0, 0⟩ ∧
    ¬ ((0 : ℚ) = ((1 : Nat) : ℚ) * 1) := by
  have hs1 : ((RandomGen.mk (fun _ => (1 : ℚ)/2) 0 [20] [(20, (0 : ℚ))]).next_states).1
      = [(20, 0)] := by
    show nextStatesAux (fun _ => (1 : ℚ)/2) [(20, (0 : ℚ))] [20] 0 = [(20, 0)]
    rw [nextStatesAux, nextStatesAux]
    have hc : (alookup 20 [(20, (0 : ℚ))]).getD DEFAULT_OFF_CHANCE
        < (fun _ => (1 : ℚ)/2) 0 := by
      show (0 : ℚ) < 1/2
      norm_num
    rw [if_pos hc]
  have hs2 : ((RandomGen.mk (fun _ => (1 : ℚ)/2) 0 [20] [(20, (0 : ℚ))]).next_states).2
      = RandomGen.mk (fun _ => (1 : ℚ)/2) 1 [20] [(20, (0 : ℚ))] := rfl
  have hfresh : ((RandomGen.mk (fun _ => (1 : ℚ)/2) 0 [20] [(20, (0 : ℚ))]).next_states).1
      ∉ ([] : List (GraphNodeState Nat)) := by
    rw [hs1]
    exact List.not_mem_nil _
  have h1 : critLoopN orComputeVal chainLinkMap chainPath [20] 30 1
        ⟨⟨fun _ => (1 : ℚ)/2, 0, [20], [(20, (0 : ℚ))]⟩, critInitData [20], []⟩
      = critBody orComputeVal chainLinkMap chainPath [20] 30
        ⟨⟨fun _ => (1 : ℚ)/2, 0, [20], [(20, (0 : ℚ))]⟩, critInitData [20], []⟩ := rfl
  have hb : critBody orComputeVal chainLinkMap chainPath [20] 30
        ⟨⟨fun _ => (1 : ℚ)/2, 0, [20], [(20, (0 : ℚ))]⟩, critInitData [20], []⟩
      = ⟨⟨fun _ => (1 : ℚ)/2, 1, [20], [(20, (0 : ℚ))]⟩,
         ⟨1, 0, [(20, ⟨0, 0⟩)]⟩, [[(20, 0)]]⟩ := by
    rw [critBody_fresh_eq orComputeVal chainLinkMap chainPath [20] 30 _ _ _ hfresh]
    rw [hs1, hs2, chain_roll_up_off]
    norm_num [GraphCritData.add, NodeCritData.add, critInitData, alookup, VISIBLE_VAL]
  rw [h1, hb]
  refine ⟨?_, rfl, ?_, ?_⟩
  · rw [chain_roll_up_off]
    rfl
  · rw [alookup, if_pos rfl]
  · norm_num

/-- C2 (amended): in the chain scenario the "always visible" configuration
for mid is `off_chance = 1.0` (a draw `r ∈ [0,1)` satisfies `r ≤ 1`, so the
code's `off_chance < r` test is false and mid gets flag 1).  Then for every
draw stream and every iteration budget `k`, every accepted sample rolls up
to a top-node value of 1.0, and the final aggregate satisfies
`end_op_sum = row_count * 1.0`, mid's `sum_end_on = row_count * 1.0` and
`sum_end_off = 0`. -/
theorem chain_always_visible_spec (rng : Nat → ℚ) (k : Nat)
    (hrng : ∀ i, 0 ≤ rng i ∧ rng i < 1) :
    (chainRun rng k).data.end_op_sum = ((chainRun rng k).data.row_count : ℚ) * 1 ∧
    alookup 20 (chainRun rng k).data.node_data
      = some ⟨((chainRun rng k).data.row_count : ℚ) * 1, 0⟩ ∧
    (∀ vs ∈ (chainRun rng k).visited,
      alookup 30 (roll_up_state orComputeVal chainPath chainLinkMap vs) = some 1) := by
  cases k with
  | zero =>
    have h0 : chainRun rng 0
        = ⟨⟨rng, 0, [20], [(20, (1 : ℚ))]⟩, critInitData [20], []⟩ := rfl
    rw [h0]
    refine ⟨?_, ?_, ?_⟩
    · show (0 : ℚ) = ((0 : Nat) : ℚ) * 1
      norm_num
    · show alookup 20 [(20, (⟨0, 0⟩ : NodeCritData))] = some ⟨((0 : Nat) : ℚ) * 1, 0⟩
      rw [alookup, if_pos rfl]
      norm_num
    · intro vs hvs
      exact absurd hvs (List.not_mem_nil vs)
  | succ n =>
    have hstep : chainRun rng (n + 1)
        = critLoopN orComputeVal chainLinkMap chainPath [20] 30 n
            (critBody orComputeVal chainLinkMap chainPath [20] 30
              ⟨⟨rng, 0, [20], [(20, (1 : ℚ))]⟩, critInitData [20], []⟩) := rfl
    have hb := chain_body_fresh rng 0 (hrng 0).2 (critInitData [20]) [] (List.not_mem_nil _)
    have hD : (critInitData [20]).add ⟨1, 1, [(20, (⟨1, 0⟩ : NodeCritData))]⟩
        = ⟨1, 1, [(20, ⟨1, 0⟩)]⟩ := by
      norm_num [GraphCritData.add, NodeCritData.add, critInitData, alookup]
    rw [hstep, hb, hD, List.nil_append]
    rw [chain_loop_dup rng (fun i => (hrng i).2) ⟨1, 1, [(20, ⟨1, 0⟩)]⟩ n (0 + 1)]
    refine ⟨?_, ?_, ?_⟩
    · show (1 : ℚ) = ((1 : Nat) : ℚ) * 1
      norm_num
    · show alookup 20 [(20, (⟨1, 0⟩ : NodeCritData))] = some ⟨((1 : Nat) : ℚ) * 1, 0⟩
      rw [alookup, if_pos rfl]
      norm_num
    · intro vs hvs
      rw [List.mem_singleton] at hvs
      subst hvs
      rw [chain_roll_up_visible]
      rfl

/-- Witness for C2 (amended) at the constant draw stream 1/2 and budget 3. -/
theorem chain_always_visible_spec_witness :
    (∀ i : Nat, 0 ≤ (fun _ => (1 : ℚ)/2) i ∧ (fun _ => (1 : ℚ)/2) i < 1) ∧
    (chainRun (fun _ => (1 : ℚ)/2) 3).data.end_op_sum
      = ((chainRun (fun _ => (1 : ℚ)/2) 3).data.row_count : ℚ) * 1 := by
  have hr : ∀ i : Nat, 0 ≤ (fun _ => (1 : ℚ)/2) i ∧ (fun _ => (1 : ℚ)/2) i < 1 := by
    intro i
    constructor
    · norm_num
    · norm_num
  exact ⟨hr, (chain_always_visible_spec (fun _ => (1 : ℚ)/2) 3 hr).1⟩
